import Mathlib

/-
Verification of the line-oriented text buffer engine of the file editor
(src/file-editor/main.go), shallowly embedded in Lean.

A Go string is embedded as a list of characters; the buffer state
`FileEditor` carries the line sequence and the dirty flag, exactly the
fields the Go struct mutates (the file name plays no role in the engine's
semantics).  Go methods that mutate the receiver and return an error are
embedded as functions returning the new state paired with an optional
error: an early `return fmt.Errorf(...)` leaves the receiver untouched,
which the embedding renders by returning the input state unchanged.

The regular-expression engine (Go's regexp package) is treated as an
abstract compiled value: a matcher `matchString` (MatchString) and a
replacer `replaceAll` (ReplaceAllString).  `regexp.Compile` is modelled by
passing `Option Regex` — `none` stands for a pattern that fails to
compile.  For concrete scenarios the patterns involved are literal strings
without metacharacters, on which Go's regexp behaves as plain substring
matching with leftmost non-overlapping replace-all; `litRegex` implements
exactly that.
-/

abbrev Line := List Char

structure FileEditor where
  lines : List Line
  modified : Bool
deriving DecidableEq

inductive EditError where
  | invalidPosition
  | invalidRange
  | invalidPattern
  | ioError
deriving DecidableEq

/-- An abstract compiled regular expression: Go's `regexp.Regexp` as the
pair of the two operations the editor uses, `MatchString` and
`ReplaceAllString` (arguments: source line, then replacement text). -/
structure Regex where
  matchString : Line → Bool
  replaceAll : Line → Line → Line

/-- Go `insertLine`: lines `append(fe.lines[:index], append([]string{text}, fe.lines[index:]...)...)`
with `index = lineNum - 1`, guarded by `lineNum < 1 || lineNum > len(fe.lines)+1`. -/
def insertLine (pos : Int) (text : Line) (fe : FileEditor) : FileEditor × Option EditError :=
  if pos < 1 ∨ pos > (fe.lines.length : Int) + 1 then
    (fe, some .invalidPosition)
  else
    let index := (pos - 1).toNat
    ({ lines := fe.lines.take index ++ text :: fe.lines.drop index, modified := true }, none)

/-- Go `deleteLine`: `append(fe.lines[:index], fe.lines[index+1:]...)`,
guarded by `lineNum < 1 || lineNum > len(fe.lines)`. -/
def deleteLine (pos : Int) (fe : FileEditor) : FileEditor × Option EditError :=
  if pos < 1 ∨ pos > (fe.lines.length : Int) then
    (fe, some .invalidPosition)
  else
    let index := (pos - 1).toNat
    ({ lines := fe.lines.take index ++ fe.lines.drop (index + 1), modified := true }, none)

/-- Go `replaceLine`: `fe.lines[lineNum-1] = text`, same guard as delete. -/
def replaceLine (pos : Int) (text : Line) (fe : FileEditor) : FileEditor × Option EditError :=
  if pos < 1 ∨ pos > (fe.lines.length : Int) then
    (fe, some .invalidPosition)
  else
    ({ lines := fe.lines.set (pos - 1).toNat text, modified := true }, none)

/-- Go `appendLine`: `fe.lines = append(fe.lines, text)`; never fails. -/
def appendLine (text : Line) (fe : FileEditor) : FileEditor :=
  { lines := fe.lines ++ [text], modified := true }

/-- The global branch of Go `searchAndReplace`: for each line compute
`newLine := regex.ReplaceAllString(line, replacement)` and count and store
it only when `newLine != line`.  Returns the resulting lines and the count. -/
def sarGlobal (regex : Regex) (replacement : Line) : List Line → List Line × Nat
  | [] => ([], 0)
  | line :: rest =>
    let newLine := regex.replaceAll line replacement
    let r := sarGlobal regex replacement rest
    if newLine ≠ line then (newLine :: r.1, r.2 + 1) else (line :: r.1, r.2)

/-- The first-match branch of Go `searchAndReplace`: scan until the first
line with `regex.MatchString(line)`, replace all matches in that line,
count it (whether or not the text changed) and `break`. -/
def sarFirst (regex : Regex) (replacement : Line) : List Line → List Line × Nat
  | [] => ([], 0)
  | line :: rest =>
    if regex.matchString line then
      (regex.replaceAll line replacement :: rest, 1)
    else
      let r := sarFirst regex replacement rest
      (line :: r.1, r.2)

/-- Go `searchAndReplace(pattern, replacement, global)`: a failed compile
returns the error with the state untouched; otherwise the chosen branch
runs and `fe.modified = true` is set only when `count > 0`.  The count the
code computes (and logs) is returned as the third component. -/
def searchAndReplace (compiled : Option Regex) (replacement : Line) (global : Bool)
    (fe : FileEditor) : FileEditor × Option EditError × Nat :=
  match compiled with
  | none => (fe, some .invalidPattern, 0)
  | some regex =>
    let r := if global then sarGlobal regex replacement fe.lines
             else sarFirst regex replacement fe.lines
    ({ lines := r.1, modified := if r.2 > 0 then true else fe.modified }, none, r.2)

/-- The scan of Go `search`: collect `i+1` for every index `i` whose line
matches, in iteration order, starting at index `i`. -/
def searchFrom (regex : Regex) : List Line → Nat → List Nat
  | [], _ => []
  | line :: rest, i =>
    if regex.matchString line then (i + 1) :: searchFrom regex rest (i + 1)
    else searchFrom regex rest (i + 1)

/-- Go `search(pattern)`: compile failure is an error; otherwise the list
of 1-based positions of matching lines.  The buffer is never written. -/
def search (compiled : Option Regex) (fe : FileEditor) : Except EditError (List Nat) :=
  match compiled with
  | none => .error .invalidPattern
  | some regex => .ok (searchFrom regex fe.lines 0)

/-- Go `copyLines(start, end)`: the guard
`start < 1 || end < 1 || start > len || end > len || start > end`, then a
fresh copy of `fe.lines[start-1:end]`.  The receiver is not written. -/
def copyLines (start stop : Int) (fe : FileEditor) : Except EditError (List Line) :=
  if start < 1 ∨ stop < 1 ∨ start > (fe.lines.length : Int) ∨ stop > (fe.lines.length : Int)
      ∨ start > stop then
    .error .invalidRange
  else
    .ok ((fe.lines.take stop.toNat).drop (start - 1).toNat)

/-- Go `pasteLines(lineNum, lines)`: same guard as insert; splices the
whole block before position `lineNum`. -/
def pasteLines (pos : Int) (block : List Line) (fe : FileEditor) : FileEditor × Option EditError :=
  if pos < 1 ∨ pos > (fe.lines.length : Int) + 1 then
    (fe, some .invalidPosition)
  else
    let index := (pos - 1).toNat
    ({ lines := fe.lines.take index ++ block ++ fe.lines.drop index, modified := true }, none)

/-- The file content Go `save` writes: each line followed by exactly one
newline character, in order. -/
def renderFile (lines : List Line) : List Char :=
  lines.foldr (fun line acc => line ++ '\n' :: acc) []

/-- Go `save`: any create/write/flush failure returns the error before
`fe.modified = false` runs, so a failed save leaves the state untouched.
The success of the I/O is a parameter of the environment; on success the
rendered content is produced and the dirty flag cleared. -/
def save (ioOk : Bool) (fe : FileEditor) : FileEditor × Option EditError × Option (List Char) :=
  if ioOk then ({ fe with modified := false }, none, some (renderFile fe.lines))
  else (fe, some .ioError, none)

/-- `dropCR` of Go's `bufio.ScanLines`: strip one trailing carriage return
from a token. -/
def dropCR (data : Line) : Line :=
  if data.getLast? = some '\r' then data.dropLast else data

/-- Split on newline characters, keeping the (possibly empty) trailing
segment: the token structure `bufio.ScanLines` sees before dropping the
final empty segment. -/
def splitNl : List Char → List Line
  | [] => [[]]
  | c :: rest =>
    if c = '\n' then [] :: splitNl rest
    else
      let parts := splitNl rest
      (c :: parts.headD []) :: parts.tail

/-- The line sequence Go's `bufio.Scanner` (with `ScanLines`) produces from
a file content when every token fits the scanner's buffer: one token per
newline-terminated segment, a final unterminated segment also a token,
each with one trailing `\r` stripped; empty content yields no tokens. -/
def scanTokens (content : List Char) : List Line :=
  if content = [] then []
  else
    let parts := splitNl content
    let toks := if parts.getLast? = some [] then parts.dropLast else parts
    toks.map dropCR

/-- `bufio.MaxScanTokenSize` = 64 * 1024: the buffer of a default
`bufio.Scanner` never grows past this size, so a token that needs at
least this many bytes before its newline makes `Scan` fail with
`ErrTooLong`.  The model's characters stand for the bytes of the spec's
opaque line text. -/
def maxScanTokenSize : Nat := 65536

/-- The full scan of Go's default `bufio.Scanner` with `ScanLines`: if any
segment (the characters between newlines, a trailing `\r` included, or
the final unterminated segment) has length at least `maxScanTokenSize`,
the scanner stops with `ErrTooLong` and `scanner.Err()` is non-nil — the
error-reading path of `loadFile`; otherwise the token list of
`scanTokens`. -/
def scanLines (content : List Char) : Except EditError (List Line) :=
  if (splitNl content).any (fun seg => decide (maxScanTokenSize ≤ seg.length)) then
    .error .ioError
  else
    .ok (scanTokens content)

/-- The state of the named resource when the editor starts: Go `loadFile`
distinguishes a missing file (`os.IsNotExist`), an unreadable one
(open/read error), and readable content. -/
inductive FsFile where
  | missing
  | unreadable
  | stored (content : List Char)

/-- Go `loadFile`: a missing file is informational and leaves the fresh
empty line list; an open failure is an error; otherwise the file is
scanned — every token is appended, and a scanner error (`scanner.Err()`
non-nil, as for an over-long line) is an error too. -/
def loadFile (file : FsFile) : Except EditError (List Line) :=
  match file with
  | .missing => .ok []
  | .unreadable => .error .ioError
  | .stored content => scanLines content

/-- Go `NewFileEditor`: start from empty lines and `modified = false`,
then run `loadFile`; its failure aborts construction. -/
def NewFileEditor (file : FsFile) : Except EditError FileEditor :=
  (loadFile file).map (fun ls => { lines := ls, modified := false })

/-- One engine operation, as dispatched by the command loop.  `doSave`
carries whether the I/O of the save succeeds; `subst` and `doSearch` carry
the result of compiling the pattern (`none` = compile failure). -/
inductive Op where
  | insert (pos : Int) (text : Line)
  | delete (pos : Int)
  | replace (pos : Int) (text : Line)
  | append (text : Line)
  | subst (compiled : Option Regex) (replacement : Line) (global : Bool)
  | doSearch (compiled : Option Regex)
  | copy (start stop : Int)
  | paste (pos : Int) (block : List Line)
  | doSave (ioOk : Bool)

/-- The state transition of one operation, with the error it reports.
Read-only operations (`search`, `copyLines`) return the state unchanged,
as the Go methods never write the receiver. -/
def applyOp : Op → FileEditor → FileEditor × Option EditError
  | .insert pos text, fe => insertLine pos text fe
  | .delete pos, fe => deleteLine pos fe
  | .replace pos text, fe => replaceLine pos text fe
  | .append text, fe => (appendLine text fe, none)
  | .subst compiled replacement global, fe =>
    let r := searchAndReplace compiled replacement global fe
    (r.1, r.2.1)
  | .doSearch compiled, fe =>
    (fe, match search compiled fe with | .ok _ => none | .error e => some e)
  | .copy start stop, fe =>
    (fe, match copyLines start stop fe with | .ok _ => none | .error e => some e)
  | .paste pos block, fe => pasteLines pos block fe
  | .doSave ioOk, fe =>
    let r := save ioOk fe
    (r.1, r.2.1)

/-- Leftmost non-overlapping replacement of a literal pattern, with fuel
(the fuel is the length of the scanned list, so it never runs out): the
behaviour of Go's `ReplaceAllString` on a non-empty literal pattern. -/
def listReplaceFuel (pat repl : Line) : Nat → Line → Line
  | _, [] => []
  | 0, s => s
  | fuel + 1, c :: cs =>
    if pat ≠ [] ∧ pat.isPrefixOf (c :: cs) then
      repl ++ listReplaceFuel pat repl fuel (cs.drop (pat.length - 1))
    else
      c :: listReplaceFuel pat repl fuel cs

def listReplace (pat repl s : Line) : Line :=
  listReplaceFuel pat repl s.length s

/-- Substring containment: Go `MatchString` on a literal pattern. -/
def containsSub (pat : Line) : Line → Bool
  | [] => pat.isEmpty
  | c :: cs => pat.isPrefixOf (c :: cs) || containsSub pat cs

/-- Go's regexp compiled from a non-empty literal pattern (no
metacharacters): matching is substring containment, replace-all is
leftmost non-overlapping literal replacement. -/
def litRegex (pat : Line) : Regex where
  matchString := fun s => containsSub pat s
  replaceAll := fun s repl => listReplace pat repl s

/-! States of the concrete scenario from the specification, starting from
the three-line buffer a, b, c. -/

def demoB0 : FileEditor := { lines := [['a'], ['b'], ['c']], modified := false }

def demoB1 : FileEditor := (insertLine 2 ['x'] demoB0).1

def demoB2 : FileEditor := (deleteLine 1 demoB1).1

def demoClip : Except EditError (List Line) := copyLines 1 2 demoB2

def demoB3 : FileEditor := (pasteLines 4 [['x'], ['b']] demoB2).1

def demoSub1 : FileEditor × Option EditError × Nat :=
  searchAndReplace (some (litRegex ['b'])) ['B'] true demoB3

def demoSub2 : FileEditor × Option EditError × Nat :=
  searchAndReplace (some (litRegex ['x'])) ['Z'] false demoSub1.1

lemma sarGlobal_spec (regex : Regex) (repl : Line) (ls : List Line) :
    sarGlobal regex repl ls =
      (ls.map (fun l => regex.replaceAll l repl),
       (ls.filter (fun l => decide (regex.replaceAll l repl ≠ l))).length) := by
  induction ls with
  | nil => simp [sarGlobal]
  | cons l ls ih =>
    simp only [sarGlobal, ih, List.map_cons, List.filter_cons]
    by_cases h : regex.replaceAll l repl = l
    · simp [h]
    · simp [h]

lemma sarFirst_count (regex : Regex) (repl : Line) (ls : List Line) :
    (sarFirst regex repl ls).2 = if ls.any regex.matchString then 1 else 0 := by
  induction ls with
  | nil => simp [sarFirst]
  | cons l ls ih =>
    simp only [sarFirst, List.any_cons]
    by_cases h : regex.matchString l
    · simp [h]
    · simp [h, ih]

lemma ite_pos_or (c : Nat) (b : Bool) :
    (if c > 0 then true else b) = (decide (0 < c) || b) := by
  by_cases h : 0 < c <;> simp [h]

/-- Claim C1 (counterexample): substituting pattern b by replacement b in
First mode on the one-line buffer b reports a count of 1 and sets
`modified = true`, although no line's text was altered — so the count
returned is not the count of altered lines, and a matching-but-unchanged
line does set `modified` in First mode. -/
theorem substitute_first_counts_unchanged_line :
    (searchAndReplace (some (litRegex ['b'])) ['b'] false
        { lines := [['b']], modified := false }).2.2 = 1 ∧
    (searchAndReplace (some (litRegex ['b'])) ['b'] false
        { lines := [['b']], modified := false }).1.lines = [['b']] ∧
    (searchAndReplace (some (litRegex ['b'])) ['b'] false
        { lines := [['b']], modified := false }).1.modified = true := by
  decide

/-- Claim C1 (amended): `substitute` never fails once the pattern
compiled; in Global mode the returned count is the number of lines whose
text was changed by the replace-all, while in First mode it is 1 exactly
when some line matches the pattern (the first matching line is counted
even when the replacement leaves its text unchanged) and 0 otherwise; the
`modified` flag is set to true when the count is positive and left
unchanged when the count is 0. -/
theorem substitute_count_spec (regex : Regex) (replacement : Line) (global : Bool)
    (fe : FileEditor) :
    (searchAndReplace (some regex) replacement global fe).2.1 = none ∧
    (searchAndReplace (some regex) replacement global fe).2.2 =
      (if global
       then (fe.lines.filter (fun l => decide (regex.replaceAll l replacement ≠ l))).length
       else if fe.lines.any regex.matchString then 1 else 0) ∧
    (searchAndReplace (some regex) replacement global fe).1.modified =
      (decide (0 < (searchAndReplace (some regex) replacement global fe).2.2)
        || fe.modified) := by
  cases global with
  | false =>
    refine ⟨rfl, ?_, ?_⟩
    · simp [searchAndReplace, sarFirst_count]
    · simp [searchAndReplace, ite_pos_or]
  | true =>
    refine ⟨rfl, ?_, ?_⟩
    · simp [searchAndReplace, sarGlobal_spec]
    · simp [searchAndReplace, ite_pos_or]

/-- Claim C2: the concrete scenario of the specification: from the buffer
a, b, c, the insert, delete, copy, paste, global substitution and
first-mode substitution produce exactly the stated intermediate line
sequences, the clipboard snapshot x, b, and the substitution counts 2
and 1. -/
theorem editor_concrete_scenario :
    demoB1.lines = [['a'], ['x'], ['b'], ['c']] ∧
    demoB2.lines = [['x'], ['b'], ['c']] ∧
    demoClip = .ok [['x'], ['b']] ∧
    demoB3.lines = [['x'], ['b'], ['c'], ['x'], ['b']] ∧
    demoSub1.1.lines = [['x'], ['B'], ['c'], ['x'], ['B']] ∧
    demoSub1.2.2 = 2 ∧
    demoSub2.1.lines = [['Z'], ['B'], ['c'], ['x'], ['B']] ∧
    demoSub2.2.2 = 1 :=
  ⟨rfl, rfl, rfl, rfl, rfl, rfl, rfl, rfl⟩

/-- Claim C9: loading a resource that does not exist succeeds and produces
a buffer with an empty line sequence and a clear dirty flag. -/
theorem load_missing_resource (Name : Type) (fs : Name → FsFile) (name : Name)
    (h : fs name = .missing) :
    NewFileEditor (fs name) = .ok { lines := [], modified := false } := by
  rw [h]; rfl

theorem load_missing_resource_witness :
    NewFileEditor ((fun _ : Nat => FsFile.missing) 0) = .ok { lines := [], modified := false } :=
  load_missing_resource Nat (fun _ => FsFile.missing) 0 rfl

/-- Claim C3: across every operation, the dirty flag becomes true on every
successful mutating operation (insert, delete, replace, append, paste
always; substitute when its count is positive), a transition from dirty to
clean happens only through a successful save, a failed save leaves the
state (flag included) exactly as it was, and a successful save clears the
flag. -/
theorem modified_flag_invariant (op : Op) (fe : FileEditor) :
    ((applyOp op fe).2 = none →
      match op with
      | .insert _ _ | .delete _ | .replace _ _ | .append _ | .paste _ _ =>
          (applyOp op fe).1.modified = true
      | .subst compiled replacement global =>
          0 < (searchAndReplace compiled replacement global fe).2.2 →
            (applyOp op fe).1.modified = true
      | _ => True) ∧
    (fe.modified = true → (applyOp op fe).1.modified = false → op = .doSave true) ∧
    applyOp (.doSave false) fe = (fe, some .ioError) ∧
    (applyOp (.doSave true) fe).1.modified = false := by
  refine ⟨?_, ?_, rfl, rfl⟩
  · cases op with
    | insert pos text =>
      by_cases hc : pos < 1 ∨ pos > (fe.lines.length : Int) + 1 <;>
        simp [applyOp, insertLine, hc]
    | delete pos =>
      by_cases hc : pos < 1 ∨ pos > (fe.lines.length : Int) <;>
        simp [applyOp, deleteLine, hc]
    | replace pos text =>
      by_cases hc : pos < 1 ∨ pos > (fe.lines.length : Int) <;>
        simp [applyOp, replaceLine, hc]
    | append text => simp [applyOp, appendLine]
    | paste pos block =>
      by_cases hc : pos < 1 ∨ pos > (fe.lines.length : Int) + 1 <;>
        simp [applyOp, pasteLines, hc]
    | subst compiled replacement global =>
      cases compiled with
      | none => simp [applyOp, searchAndReplace]
      | some regex =>
        intro _ hcount
        simp only [searchAndReplace] at hcount
        simp [applyOp, searchAndReplace, hcount]
    | doSearch compiled => intro _; trivial
    | copy start stop => intro _; trivial
    | doSave ioOk => intro _; trivial
  · intro hm hf
    cases op with
    | insert pos text =>
      by_cases hc : pos < 1 ∨ pos > (fe.lines.length : Int) + 1 <;>
        simp [applyOp, insertLine, hc, hm] at hf
    | delete pos =>
      by_cases hc : pos < 1 ∨ pos > (fe.lines.length : Int) <;>
        simp [applyOp, deleteLine, hc, hm] at hf
    | replace pos text =>
      by_cases hc : pos < 1 ∨ pos > (fe.lines.length : Int) <;>
        simp [applyOp, replaceLine, hc, hm] at hf
    | append text => simp [applyOp, appendLine] at hf
    | paste pos block =>
      by_cases hc : pos < 1 ∨ pos > (fe.lines.length : Int) + 1 <;>
        simp [applyOp, pasteLines, hc, hm] at hf
    | subst compiled replacement global =>
      cases compiled with
      | none => simp [applyOp, searchAndReplace, hm] at hf
      | some regex =>
        simp only [applyOp, searchAndReplace] at hf
        by_cases hc :
            0 < (if global then sarGlobal regex replacement fe.lines
                 else sarFirst regex replacement fe.lines).2 <;>
          simp [hc, hm] at hf
    | doSearch compiled => simp [applyOp, hm] at hf
    | copy start stop => simp [applyOp, hm] at hf
    | doSave ioOk =>
      cases ioOk with
      | true => rfl
      | false => simp [applyOp, save, hm] at hf

/-- Claim C10: every failing engine operation is atomic: an operation that
reports an error returns the state exactly as it was, and the listed
invalid inputs (out-of-range positions for insert, delete, replace and
paste, an invalid range for copy, an uncompilable pattern for search and
substitute) do report the corresponding error. -/
theorem failing_ops_atomic (op : Op) (fe : FileEditor) :
    ((applyOp op fe).2 ≠ none → (applyOp op fe).1 = fe) ∧
    (∀ pos text, (pos < 1 ∨ pos > (fe.lines.length : Int)) →
        deleteLine pos fe = (fe, some .invalidPosition) ∧
        replaceLine pos text fe = (fe, some .invalidPosition)) ∧
    (∀ pos text block, (pos < 1 ∨ pos > (fe.lines.length : Int) + 1) →
        insertLine pos text fe = (fe, some .invalidPosition) ∧
        pasteLines pos block fe = (fe, some .invalidPosition)) ∧
    (∀ start stop, ¬(1 ≤ start ∧ start ≤ stop ∧ stop ≤ (fe.lines.length : Int)) →
        copyLines start stop fe = .error .invalidRange) ∧
    (∀ replacement global,
        searchAndReplace none replacement global fe = (fe, some .invalidPattern, 0) ∧
        search none fe = .error .invalidPattern) := by
  refine ⟨?_, ?_, ?_, ?_, fun _ _ => ⟨rfl, rfl⟩⟩
  · cases op with
    | insert pos text =>
      by_cases hc : pos < 1 ∨ pos > (fe.lines.length : Int) + 1 <;>
        simp [applyOp, insertLine, hc]
    | delete pos =>
      by_cases hc : pos < 1 ∨ pos > (fe.lines.length : Int) <;>
        simp [applyOp, deleteLine, hc]
    | replace pos text =>
      by_cases hc : pos < 1 ∨ pos > (fe.lines.length : Int) <;>
        simp [applyOp, replaceLine, hc]
    | append text => simp [applyOp]
    | paste pos block =>
      by_cases hc : pos < 1 ∨ pos > (fe.lines.length : Int) + 1 <;>
        simp [applyOp, pasteLines, hc]
    | subst compiled replacement global =>
      cases compiled with
      | none => intro _; rfl
      | some regex => simp [applyOp, searchAndReplace]
    | doSearch compiled => intro _; rfl
    | copy start stop => intro _; rfl
    | doSave ioOk =>
      cases ioOk with
      | true => simp [applyOp, save]
      | false => intro _; rfl
  · intro pos text hpos
    exact ⟨by simp [deleteLine, hpos], by simp [replaceLine, hpos]⟩
  · intro pos text block hpos
    exact ⟨by simp [insertLine, hpos], by simp [pasteLines, hpos]⟩
  · intro start stop hrange
    have hg : start < 1 ∨ stop < 1 ∨ start > (fe.lines.length : Int)
        ∨ stop > (fe.lines.length : Int) ∨ start > stop := by omega
    simp [copyLines, hg]

/-- Claim C6: `copyLines` succeeds exactly on ranges with
1 ≤ start ≤ stop ≤ number of lines, in which case it returns the value
snapshot of lines start through stop inclusive — a list of length
stop − start + 1 — and it never changes the buffer (lines or dirty flag);
on any other range it fails with the invalid-range error. -/
theorem copy_range_spec (fe : FileEditor) (start stop : Int) :
    (applyOp (.copy start stop) fe).1 = fe ∧
    (if 1 ≤ start ∧ start ≤ stop ∧ stop ≤ (fe.lines.length : Int)
     then copyLines start stop fe =
            .ok ((fe.lines.take stop.toNat).drop (start - 1).toNat) ∧
          ((fe.lines.take stop.toNat).drop (start - 1).toNat).length = (stop - start + 1).toNat
     else copyLines start stop fe = .error .invalidRange) := by
  refine ⟨rfl, ?_⟩
  split
  case isTrue h =>
    have hg : ¬(start < 1 ∨ stop < 1 ∨ start > (fe.lines.length : Int)
        ∨ stop > (fe.lines.length : Int) ∨ start > stop) := by omega
    refine ⟨by simp [copyLines, hg], ?_⟩
    simp only [List.length_drop, List.length_take]
    omega
  case isFalse h =>
    have hg : start < 1 ∨ stop < 1 ∨ start > (fe.lines.length : Int)
        ∨ stop > (fe.lines.length : Int) ∨ start > stop := by omega
    simp [copyLines, hg]

lemma take_insert_delete_cancel {α : Type} (l : List α) :
    ∀ (i : Nat) (t : α), i ≤ l.length →
      (l.take i ++ t :: l.drop i).take i ++ (l.take i ++ t :: l.drop i).drop (i + 1) = l := by
  induction l with
  | nil =>
    intro i t hi
    have : i = 0 := by simpa using hi
    subst this
    simp
  | cons x xs ih =>
    intro i t hi
    cases i with
    | zero => simp
    | succ j =>
      have hj : j ≤ xs.length := by simpa using hi
      have := ih j t hj
      simp only [List.take_succ_cons, List.drop_succ_cons, List.cons_append]
      rw [this]

/-- Claim C4: for every buffer, valid insert position and text, inserting
and then deleting at the same position restores the line sequence. -/
theorem insert_then_delete_restores (fe : FileEditor) (pos : Int) (text : Line)
    (h1 : 1 ≤ pos) (h2 : pos ≤ (fe.lines.length : Int) + 1) :
    ((deleteLine pos (insertLine pos text fe).1).1).lines = fe.lines := by
  have hni : ¬(pos < 1 ∨ pos > (fe.lines.length : Int) + 1) := by omega
  have hil : (pos - 1).toNat ≤ fe.lines.length := by omega
  have hlen :
      (fe.lines.take (pos - 1).toNat ++ text :: fe.lines.drop (pos - 1).toNat).length =
        fe.lines.length + 1 := by
    simp only [List.length_append, List.length_take, List.length_cons, List.length_drop]
    omega
  have hnd : ¬(pos < 1 ∨ pos >
      ((fe.lines.take (pos - 1).toNat ++ text :: fe.lines.drop (pos - 1).toNat).length : Int)) := by
    rw [hlen]
    push_cast
    omega
  simp only [insertLine, hni, if_neg, if_false, deleteLine, hnd]
  exact take_insert_delete_cancel fe.lines (pos - 1).toNat text hil

lemma splitNl_append_nl (l r : List Char) (h : '\n' ∉ l) :
    splitNl (l ++ '\n' :: r) = l :: splitNl r := by
  induction l with
  | nil => simp [splitNl]
  | cons c cs ih =>
    have hc : ¬(c = '\n') := fun he => h (by simp [he])
    have hcs : '\n' ∉ cs := fun he => h (by simp [he])
    simp only [List.cons_append, splitNl, hc, if_false, List.append_eq]
    rw [ih hcs]
    simp

lemma splitNl_render (lines : List Line) (h : ∀ l ∈ lines, '\n' ∉ l) :
    splitNl (renderFile lines) = lines ++ [[]] := by
  induction lines with
  | nil => simp [renderFile, splitNl]
  | cons l ls ih =>
    have h1 : '\n' ∉ l := h l (by simp)
    have h2 : ∀ x ∈ ls, '\n' ∉ x := fun x hx => h x (by simp [hx])
    show splitNl (l ++ '\n' :: renderFile ls) = (l :: ls) ++ [[]]
    rw [splitNl_append_nl l _ h1, ih h2]
    simp

lemma renderFile_cons_ne_nil (l : Line) (ls : List Line) : renderFile (l :: ls) ≠ [] := by
  show l ++ '\n' :: renderFile ls ≠ []
  simp

lemma map_dropCR_id (ls : List Line) (h : ∀ x ∈ ls, x.getLast? ≠ some '\r') :
    ls.map dropCR = ls := by
  induction ls with
  | nil => rfl
  | cons x xs ih =>
    have hx : dropCR x = x := by simp [dropCR, h x (by simp)]
    simp [hx, ih (fun y hy => h y (by simp [hy]))]

lemma scanTokens_render (lines : List Line)
    (h : ∀ l ∈ lines, '\n' ∉ l ∧ l.getLast? ≠ some '\r') :
    scanTokens (renderFile lines) = lines := by
  cases lines with
  | nil => rfl
  | cons l ls =>
    have hnl : ∀ x ∈ l :: ls, '\n' ∉ x := fun x hx => (h x hx).1
    have hcr : ∀ x ∈ l :: ls, x.getLast? ≠ some '\r' := fun x hx => (h x hx).2
    have hsplit := splitNl_render (l :: ls) hnl
    simp only [scanTokens, renderFile_cons_ne_nil l ls, if_false, hsplit]
    rw [List.getLast?_concat]
    simp only [if_pos rfl, List.dropLast_concat]
    exact map_dropCR_id (l :: ls) hcr

lemma scanLines_errors_on_overlong (l : Line) (hnl : '\n' ∉ l)
    (hlen : maxScanTokenSize ≤ l.length) :
    scanLines (renderFile [l]) = .error .ioError := by
  have hsplit : splitNl (renderFile [l]) = [l] ++ [[]] :=
    splitNl_render [l] (by simpa using hnl)
  simp [scanLines, hsplit, hlen]

/-- Claim C5 (counterexample): the single line consisting of the letter a
followed by a carriage return contains no line terminator (no newline),
yet saving it and loading the result yields the line a — the scanner of
the load strips the trailing carriage return — so the round trip is not
the identity on it. -/
theorem round_trip_trailing_cr_fails :
    (['a', '\r'].contains '\n') = false ∧
    scanLines (renderFile [['a', '\r']]) = .ok [['a']] ∧
    [['a']] ≠ [['a', '\r']] :=
  ⟨by decide, rfl, by decide⟩

/-- Claim C5 (amended): saving a buffer and loading the written content
yields the same line sequence, for every sequence of lines in which no
line contains a newline character, no line ends with a carriage return (a
trailing carriage return would be stripped by the scanner on load), and
every line is shorter than the scanner's maximum token size of 65536
bytes (a longer line saves fine but fails to load with `ErrTooLong`, as
`scanLines_errors_on_overlong` records). -/
theorem save_load_round_trip (lines : List Line)
    (h : ∀ l ∈ lines,
      '\n' ∉ l ∧ l.getLast? ≠ some '\r' ∧ l.length < maxScanTokenSize) :
    scanLines (renderFile lines) = .ok lines := by
  have hnl : ∀ l ∈ lines, '\n' ∉ l := fun l hl => (h l hl).1
  have hlimit : (splitNl (renderFile lines)).any
      (fun seg => decide (maxScanTokenSize ≤ seg.length)) = false := by
    rw [splitNl_render lines hnl, List.any_eq_false]
    intro seg hseg
    rcases List.mem_append.mp hseg with hs | hs
    · simpa using Nat.not_le.mpr (h seg hs).2.2
    · simp at hs
      subst hs
      simp [maxScanTokenSize]
  simp only [scanLines, hlimit, Bool.false_eq_true, if_false]
  exact congrArg Except.ok
    (scanTokens_render lines (fun l hl => ⟨(h l hl).1, (h l hl).2.1⟩))

theorem save_load_round_trip_witness :
    scanLines (renderFile [['h', 'i'], []]) = .ok [['h', 'i'], []] :=
  save_load_round_trip [['h', 'i'], []] (by decide)

lemma searchFrom_cons (regex : Regex) (l : Line) (rest : List Line) (i : Nat) :
    searchFrom regex (l :: rest) i =
      if regex.matchString l then (i + 1) :: searchFrom regex rest (i + 1)
      else searchFrom regex rest (i + 1) := rfl

lemma searchFrom_mem (regex : Regex) :
    ∀ (ls : List Line) (i p : Nat),
      p ∈ searchFrom regex ls i ↔
        ∃ j, j < ls.length ∧ p = i + j + 1 ∧ regex.matchString (ls.getD j []) = true := by
  intro ls
  induction ls with
  | nil => intro i p; simp [searchFrom]
  | cons l ls ih =>
    intro i p
    by_cases h : regex.matchString l
    · rw [searchFrom_cons, if_pos h]
      rw [List.mem_cons, ih]
      constructor
      · rintro (rfl | ⟨j, hj, rfl, hm⟩)
        · exact ⟨0, by simp, by omega, by simpa using h⟩
        · exact ⟨j + 1, by simp; omega, by omega, by simpa using hm⟩
      · rintro ⟨j, hj, rfl, hm⟩
        cases j with
        | zero => left; omega
        | succ k =>
          right
          exact ⟨k, by simp at hj; omega, by omega, by simpa using hm⟩
    · rw [searchFrom_cons, if_neg h, ih]
      constructor
      · rintro ⟨j, hj, rfl, hm⟩
        exact ⟨j + 1, by simp; omega, by omega, by simpa using hm⟩
      · rintro ⟨j, hj, rfl, hm⟩
        cases j with
        | zero => simp at hm; exact absurd hm h
        | succ k => exact ⟨k, by simp at hj; omega, by omega, by simpa using hm⟩

lemma searchFrom_chain (regex : Regex) :
    ∀ (ls : List Line) (i : Nat), List.Chain' (· < ·) (searchFrom regex ls i) := by
  intro ls
  induction ls with
  | nil => intro i; simp [searchFrom]
  | cons l ls ih =>
    intro i
    by_cases h : regex.matchString l
    · rw [searchFrom_cons, if_pos h]
      refine List.Chain'.cons' (ih (i + 1)) ?_
      intro y hy
      have hmem : y ∈ searchFrom regex ls (i + 1) := List.mem_of_mem_head? hy
      obtain ⟨j, hj, rfl, hm⟩ := (searchFrom_mem regex ls (i + 1) _).mp hmem
      omega
    · rw [searchFrom_cons, if_neg h]
      exact ih (i + 1)

lemma searchFrom_nil_of_no_match (regex : Regex) :
    ∀ (ls : List Line) (i : Nat), (∀ l ∈ ls, regex.matchString l = false) →
      searchFrom regex ls i = [] := by
  intro ls
  induction ls with
  | nil => intro i _; rfl
  | cons l ls ih =>
    intro i h
    have hl : regex.matchString l = false := h l (by simp)
    simp [searchFrom, hl, ih (i + 1) (fun x hx => h x (by simp [hx]))]

/-- Claim C7: `search` fails with the invalid-pattern error exactly when
the pattern does not compile; with a compiled pattern it succeeds (an
empty result is not an error), never changes the buffer, and returns the
strictly ascending list of exactly the 1-based positions of the lines the
pattern matches; when no line matches the result is empty. -/
theorem search_spec (regex : Regex) (fe : FileEditor) :
    search none fe = .error .invalidPattern ∧
    search (some regex) fe = .ok (searchFrom regex fe.lines 0) ∧
    (applyOp (.doSearch (some regex)) fe).1 = fe ∧
    List.Chain' (· < ·) (searchFrom regex fe.lines 0) ∧
    (∀ p, p ∈ searchFrom regex fe.lines 0 ↔
      1 ≤ p ∧ p ≤ fe.lines.length ∧ regex.matchString (fe.lines.getD (p - 1) []) = true) ∧
    ((∀ l ∈ fe.lines, regex.matchString l = false) → searchFrom regex fe.lines 0 = []) := by
  refine ⟨rfl, rfl, rfl, searchFrom_chain regex fe.lines 0, ?_,
    searchFrom_nil_of_no_match regex fe.lines 0⟩
  intro p
  rw [searchFrom_mem]
  constructor
  · rintro ⟨j, hj, rfl, hm⟩
    refine ⟨by omega, by omega, ?_⟩
    have hp : 0 + j + 1 - 1 = j := by omega
    rw [hp]
    exact hm
  · rintro ⟨h1, h2, hm⟩
    exact ⟨p - 1, by omega, by omega, hm⟩

lemma sarGlobal_of_fixed (regex : Regex) (repl : Line) :
    ∀ (ls : List Line), (∀ l ∈ ls, regex.replaceAll l repl = l) →
      sarGlobal regex repl ls = (ls, 0) := by
  intro ls
  induction ls with
  | nil => intro _; rfl
  | cons l ls ih =>
    intro h
    have hl : regex.replaceAll l repl = l := h l (by simp)
    simp [sarGlobal, hl, ih (fun x hx => h x (by simp [hx]))]

lemma searchAndReplace_global_fixed (regex : Regex) (repl : Line) (s : FileEditor)
    (h : ∀ l ∈ s.lines, regex.replaceAll l repl = l) :
    searchAndReplace (some regex) repl true s = (s, none, 0) := by
  have h2 := sarGlobal_of_fixed regex repl s.lines h
  simp [searchAndReplace, h2]

/-- Claim C8 (counterexample): with the pattern ab and the replacement b —
a replacement the pattern does not match — a global substitution on the
one-line buffer aab yields ab, which matches again, so the immediately
repeated global substitution reports 1 changed line, not 0: the claimed
idempotence fails because a replacement can combine with adjacent text to
form a new match. -/
theorem global_substitute_not_idempotent :
    (litRegex ['a', 'b']).matchString ['b'] = false ∧
    (searchAndReplace (some (litRegex ['a', 'b'])) ['b'] true
        ((searchAndReplace (some (litRegex ['a', 'b'])) ['b'] true
            { lines := [['a', 'a', 'b']], modified := false }).1)).2.2 = 1 := by
  decide

/-- Claim C8 (amended): a second consecutive global substitution reports 0
changed lines and leaves the state untouched provided no line produced by
the first substitution still matches the pattern (the premise that the
replacement alone does not match the pattern is not sufficient); the
matching hypothesis needs the regex fact that replace-all leaves a
non-matching line unchanged, stated here for the lines concerned. -/
theorem global_substitute_idempotent (regex : Regex) (replacement : Line) (fe : FileEditor)
    (hnomatch : ∀ l ∈ (sarGlobal regex replacement fe.lines).1,
        regex.matchString l = false)
    (hfix : ∀ l ∈ (sarGlobal regex replacement fe.lines).1,
        regex.matchString l = false → regex.replaceAll l replacement = l) :
    searchAndReplace (some regex) replacement true
        ((searchAndReplace (some regex) replacement true fe).1) =
      ((searchAndReplace (some regex) replacement true fe).1, none, 0) := by
  have hall : ∀ l ∈ (sarGlobal regex replacement fe.lines).1,
      regex.replaceAll l replacement = l := fun l hl => hfix l hl (hnomatch l hl)
  exact searchAndReplace_global_fixed regex replacement
    ((searchAndReplace (some regex) replacement true fe).1) hall

theorem global_substitute_idempotent_witness :
    searchAndReplace (some (litRegex ['b'])) ['B'] true
        ((searchAndReplace (some (litRegex ['b'])) ['B'] true
            { lines := [['b'], ['c']], modified := false }).1) =
      ((searchAndReplace (some (litRegex ['b'])) ['B'] true
          { lines := [['b'], ['c']], modified := false }).1, none, 0) :=
  global_substitute_idempotent (litRegex ['b']) ['B']
    { lines := [['b'], ['c']], modified := false } (by decide) (by decide)

theorem insert_then_delete_restores_witness :
    ((deleteLine 2 (insertLine 2 ['x'] { lines := [['a'], ['b']], modified := false }).1).1).lines
      = [['a'], ['b']] :=
  insert_then_delete_restores { lines := [['a'], ['b']], modified := false } 2 ['x']
    (by decide) (by decide)
